import Mathlib

/-!
Verification of the pkgsite ingestion-state core.

Part 1 embeds `internal/dzip/dzip.go` (the archive extractor).
Part 2 models the version-state store whose implementation is only
visible through its test (`internal/postgres/versionstate_test.go`)
and the specification.
-/

namespace Dzip

/-- `MaxFileSize` from dzip.go: `var MaxFileSize = uint64(3e7)`. -/
def MaxFileSize : Nat := 30000000

/-- A zip archive entry together with the observable behaviour of its
stream, embedding `*zip.File`:
`name` and `uncompressedSize64` are the entry's header fields;
`openErr` is the failure of `f.Open()` when present;
`content` is the byte sequence the decompressed stream produces;
`readErr`, when present, is the error `ioutil.ReadAll` hits after
producing `content`; `closeErr`, when present, is the error returned
by `r.Close()`. -/
structure ZipFile where
  name : String
  uncompressedSize64 : Nat
  openErr : Option String
  content : List Nat
  readErr : Option String
  closeErr : Option String
deriving Repr, DecidableEq

/-- The observable outcome of `ReadZipFile`, mirroring the Go pair
`([]byte, error)` plus two instrumentation fields: whether `r.Close()`
was invoked on the stream and how many bytes were consumed from it. -/
structure ReadResult where
  bytes : Option (List Nat)
  err : Option String
  closeCalled : Bool
  bytesRead : Nat
deriving Repr, DecidableEq

/-- Go's `%q` for the simple names used here: the string in quotes. -/
def quoted (s : String) : String := "\"" ++ s ++ "\""

/-- Embedding of `ReadZipFile` (dzip.go lines 23-38), following its
control flow exactly:
open the entry (failure wraps the open error);
`ioutil.ReadAll` the stream (on failure, `r.Close()` is called with its
error discarded, and the read error is returned);
`r.Close()` (on failure its error is returned with nil bytes);
otherwise return the bytes read.  No size check is performed. -/
def ReadZipFile (f : ZipFile) : ReadResult :=
  match f.openErr with
  | some e =>
      { bytes := none
        err := some ("f.Open() for " ++ quoted f.name ++ ": " ++ e)
        closeCalled := false
        bytesRead := 0 }
  | none =>
      match f.readErr with
      | some e =>
          { bytes := none
            err := some ("ioutil.ReadAll(r) for " ++ quoted f.name ++ ": " ++ e)
            closeCalled := true
            bytesRead := f.content.length }
      | none =>
          match f.closeErr with
          | some e =>
              { bytes := none
                err := some ("r.Close() for " ++ quoted f.name ++ ": " ++ e)
                closeCalled := true
                bytesRead := f.content.length }
          | none =>
              { bytes := some f.content
                err := none
                closeCalled := true
                bytesRead := f.content.length }

/-- An oversized entry for the counterexamples: its declared
uncompressed size exceeds `MaxFileSize`, the stream works fine. -/
def oversizedEntry : ZipFile :=
  { name := "big.go"
    uncompressedSize64 := MaxFileSize + 1
    openErr := none
    content := [1, 2, 3]
    readErr := none
    closeErr := none }

/-- An entry whose stream produces more bytes than it declares. -/
def lyingEntry : ZipFile :=
  { name := "bomb.go"
    uncompressedSize64 := 1
    openErr := none
    content := [7, 7, 7, 7, 7]
    readErr := none
    closeErr := none }

end Dzip

/-- C1 counterexample: on an entry whose declared uncompressed size is
`MaxFileSize + 1`, `ReadZipFile` does not fail with a size-exceeded
error before reading; it reads the whole stream and returns the bytes
successfully. -/
theorem c1_counterexample :
    Dzip.oversizedEntry.uncompressedSize64 > Dzip.MaxFileSize ∧
    (Dzip.ReadZipFile Dzip.oversizedEntry).err = none ∧
    (Dzip.ReadZipFile Dzip.oversizedEntry).bytes = some [1, 2, 3] ∧
    (Dzip.ReadZipFile Dzip.oversizedEntry).bytesRead = 3 := by
  decide

/-- C1 amended: `ReadZipFile` performs no declared-size check at all;
its outcome is completely independent of `uncompressedSize64` (the
doc comment delegates the size check to the caller). -/
theorem c1_readZipFile_ignores_declared_size (f : Dzip.ZipFile) (n : Nat) :
    Dzip.ReadZipFile { f with uncompressedSize64 := n } = Dzip.ReadZipFile f := by
  unfold Dzip.ReadZipFile
  rfl

/-- C2 counterexample: on an entry declaring 1 byte whose stream
produces 5 bytes, `ReadZipFile` buffers and returns all 5 bytes
instead of failing with a size-exceeded error. -/
theorem c2_counterexample :
    Dzip.lyingEntry.content.length > Dzip.lyingEntry.uncompressedSize64 ∧
    (Dzip.ReadZipFile Dzip.lyingEntry).err = none ∧
    (Dzip.ReadZipFile Dzip.lyingEntry).bytes = some [7, 7, 7, 7, 7] := by
  decide

/-- C2 amended: `ReadZipFile` has no secondary defense while
streaming: whenever open, read and close succeed it returns every byte
the stream produced, regardless of how far the stream overran the
entry's declared uncompressed size. -/
theorem c2_readZipFile_buffers_everything (f : Dzip.ZipFile)
    (hopen : f.openErr = none) (hread : f.readErr = none)
    (hclose : f.closeErr = none) :
    (Dzip.ReadZipFile f).bytes = some f.content ∧
    (Dzip.ReadZipFile f).bytesRead = f.content.length := by
  unfold Dzip.ReadZipFile
  rw [hopen, hread, hclose]
  exact ⟨rfl, rfl⟩

/-- C2 amended witness at the lying entry. -/
theorem c2_readZipFile_buffers_everything_witness :
    (Dzip.ReadZipFile Dzip.lyingEntry).bytes = some Dzip.lyingEntry.content ∧
    (Dzip.ReadZipFile Dzip.lyingEntry).bytesRead = Dzip.lyingEntry.content.length :=
  c2_readZipFile_buffers_everything Dzip.lyingEntry rfl rfl rfl

/-- C9: whenever the entry's stream was opened, `ReadZipFile` closes it
on every path; and when `ioutil.ReadAll` fails, the error returned to
the caller is the read failure itself, independent of whether the
subsequent `r.Close()` also failed — a close error never masks it. -/
theorem c9_stream_closed_and_read_error_not_masked (f : Dzip.ZipFile)
    (hopen : f.openErr = none) :
    (Dzip.ReadZipFile f).closeCalled = true ∧
    (∀ e, f.readErr = some e →
      (Dzip.ReadZipFile f).err =
        some ("ioutil.ReadAll(r) for " ++ Dzip.quoted f.name ++ ": " ++ e)) := by
  unfold Dzip.ReadZipFile
  rw [hopen]
  cases hread : f.readErr with
  | some e =>
      refine ⟨rfl, ?_⟩
      intro e' he'
      injection he' with h
      subst h
      rfl
  | none =>
      cases hclose : f.closeErr with
      | some e => exact ⟨rfl, by intro e' he'; simp at he'⟩
      | none => exact ⟨rfl, by intro e' he'; simp at he'⟩

/-- C9 witness: an entry whose read fails and whose close would also
fail; the stream is closed and the read error is the one reported. -/
theorem c9_witness :
    (Dzip.ReadZipFile
      { name := "x.go", uncompressedSize64 := 4, openErr := none,
        content := [9], readErr := some "unexpected EOF",
        closeErr := some "close failed" }).closeCalled = true ∧
    (∀ e, (some "unexpected EOF" : Option String) = some e →
      (Dzip.ReadZipFile
        { name := "x.go", uncompressedSize64 := 4, openErr := none,
          content := [9], readErr := some "unexpected EOF",
          closeErr := some "close failed" }).err =
        some ("ioutil.ReadAll(r) for " ++ Dzip.quoted "x.go" ++ ": " ++ e)) :=
  c9_stream_closed_and_read_error_not_masked
    { name := "x.go", uncompressedSize64 := 4, openErr := none,
      content := [9], readErr := some "unexpected EOF",
      closeErr := some "close failed" } rfl

/-- C10: when the stream reads completely but `r.Close()` then fails,
`ReadZipFile` returns nil bytes together with the close error: the
decompressed content is discarded, so a caller seeing a non-null error
never observes any content. -/
theorem c10_close_failure_discards_content (f : Dzip.ZipFile) (e : String)
    (hopen : f.openErr = none) (hread : f.readErr = none)
    (hclose : f.closeErr = some e) :
    (Dzip.ReadZipFile f).bytes = none ∧
    (Dzip.ReadZipFile f).err =
      some ("r.Close() for " ++ Dzip.quoted f.name ++ ": " ++ e) := by
  unfold Dzip.ReadZipFile
  rw [hopen, hread, hclose]
  exact ⟨rfl, rfl⟩

/-- C10 witness: a concrete entry that reads fully but fails to close. -/
theorem c10_witness :
    (Dzip.ReadZipFile
      { name := "y.go", uncompressedSize64 := 2, openErr := none,
        content := [4, 5], readErr := none,
        closeErr := some "broken pipe" }).bytes = none ∧
    (Dzip.ReadZipFile
      { name := "y.go", uncompressedSize64 := 2, openErr := none,
        content := [4, 5], readErr := none,
        closeErr := some "broken pipe" }).err =
      some ("r.Close() for " ++ Dzip.quoted "y.go" ++ ": " ++ "broken pipe") :=
  c10_close_failure_discards_content
    { name := "y.go", uncompressedSize64 := 2, openErr := none,
      content := [4, 5], readErr := none, closeErr := some "broken pipe" }
    "broken pipe" rfl rfl rfl

namespace VersionStore

/-!
The version state store.  Its implementation is not among the source
files; only its test (`internal/postgres/versionstate_test.go`) and the
specification describe it.  The definitions below are therefore
modelled from the spec (section 4.1), checked against the observable
behaviour the test pins down.
-/

/-- `internal.IndexVersion`: a fact from the index feed. -/
structure IndexVersion where
  path : String
  version : String
  timestamp : Nat
deriving Repr, DecidableEq

/-- `internal.VersionState`: the durable per-version processing record
(spec section 3).  Timestamps are naturals; nullable columns are
`Option`. -/
structure VersionState where
  modulePath : String
  version : String
  indexTimestamp : Nat
  createdAt : Nat
  lastProcessedAt : Option Nat
  tryCount : Nat
  status : Option Nat
  error : Option String
  nextProcessedAfter : Option Nat
deriving Repr, DecidableEq

/-- Errors of the store.  Spec section 7 names not-found for a lookup
or record on an absent version. -/
inductive StoreError where
  | notFound
deriving Repr, DecidableEq

/-- Whether a row carries the unique key `(ModulePath, Version)`. -/
def sameKey (p v : String) (r : VersionState) : Bool :=
  r.modulePath == p && r.version == v

/-- One minute, the store's time unit (timestamps count seconds). -/
def minute : Nat := 60

/-- Modelled from the spec: the retry backoff.  Section 4.1 fixes only
that `backoff` is monotonically increasing in the attempt count and
that the first attempt yields a one-minute offset (section 9 leaves the
growth curve for `TryCount > 1` open); the linear curve chosen here
satisfies both constraints. -/
def backoff (n : Nat) : Nat := minute * n

/-- Modelled from the spec: the row created for a newly discovered
version — `IndexTimestamp` from the input, `TryCount = 0`, processing
fields null, `CreatedAt = now`. -/
def newState (now : Nat) (v : IndexVersion) : VersionState :=
  { modulePath := v.path
    version := v.version
    indexTimestamp := v.timestamp
    createdAt := now
    lastProcessedAt := none
    tryCount := 0
    status := none
    error := none
    nextProcessedAfter := none }

/-- Modelled from the spec: the per-version step of
`InsertIndexVersions` — if the key is present, overwrite
`IndexTimestamp` and leave every other column untouched; otherwise
append a fresh row. -/
def upsertIndexVersion (now : Nat) (store : List VersionState)
    (v : IndexVersion) : List VersionState :=
  if store.any (sameKey v.path v.version) then
    store.map (fun r =>
      if sameKey v.path v.version r then { r with indexTimestamp := v.timestamp } else r)
  else
    store ++ [newState now v]

/-- Modelled from the spec: `InsertIndexVersions`
(InsertDiscoveredVersions), the idempotent bulk upsert of discovered
versions. -/
def InsertIndexVersions (now : Nat) (store : List VersionState)
    (vs : List IndexVersion) : List VersionState :=
  vs.foldl (upsertIndexVersion now) store

/-- Modelled from the spec: `UpsertVersionState` (RecordAttempt).
Records one processing attempt against the unique existing row:
`TryCount += 1`, `LastProcessedAt = now`, `Status` and `Error` from the
arguments, `NextProcessedAfter = CreatedAt + backoff TryCount`.  Fails
with not-found when no row exists for the key.  The `ts` argument
mirrors the Go signature's index timestamp; the spec's effect list
does not include overwriting `IndexTimestamp`. -/
def UpsertVersionState (now : Nat) (p v : String) (ts : Nat) (code : Nat)
    (errMsg : Option String) (store : List VersionState) :
    Except StoreError (List VersionState) :=
  if store.any (sameKey p v) then
    .ok (store.map (fun r =>
      if sameKey p v r then
        { r with
          tryCount := r.tryCount + 1
          lastProcessedAt := some now
          status := some code
          error := errMsg
          nextProcessedAfter := some (r.createdAt + backoff (r.tryCount + 1)) }
      else r))
  else
    .error .notFound

/-- Modelled from the spec: a row is eligible for fetching when
`NextProcessedAfter` is null/zero or not in the future. -/
def eligible (now : Nat) (r : VersionState) : Bool :=
  match r.nextProcessedAfter with
  | none => true
  | some t => t ≤ now

/-- The tie-breaking key order of `GetNextVersionsToFetch`:
`(ModulePath, Version)` ascending, lexicographically. -/
def keyLE (a b : VersionState) : Prop :=
  a.modulePath < b.modulePath ∨
    (a.modulePath = b.modulePath ∧ a.version ≤ b.version)

/-- The row order of `GetNextVersionsToFetch`: `IndexTimestamp`
descending, ties broken by `(ModulePath, Version)` ascending. -/
def fetchOrder (a b : VersionState) : Prop :=
  b.indexTimestamp < a.indexTimestamp ∨
    (a.indexTimestamp = b.indexTimestamp ∧ keyLE a b)

instance : DecidableRel keyLE := fun a b => by
  unfold keyLE; exact inferInstance

instance : DecidableRel fetchOrder := fun a b => by
  unfold fetchOrder; exact inferInstance

/-- Modelled from the spec: `GetNextVersionsToFetch` — the eligible
rows, by `IndexTimestamp` descending with `(ModulePath, Version)`
ascending tie-break, at most `limit` of them; an empty list (never an
error) when nothing is eligible. -/
def GetNextVersionsToFetch (now limit : Nat) (store : List VersionState) :
    List VersionState :=
  (List.insertionSort fetchOrder (store.filter (eligible now))).take limit

/-- Modelled from the spec: `GetVersionState`, point lookup by key,
not-found when absent. -/
def GetVersionState (p v : String) (store : List VersionState) :
    Except StoreError VersionState :=
  match store.find? (sameKey p v) with
  | some r => .ok r
  | none => .error .notFound

/-- Modelled from the spec: `LatestIndexTimestamp`, the maximum
`IndexTimestamp` across all rows, or zero when the store is empty. -/
def LatestIndexTimestamp (store : List VersionState) : Nat :=
  store.foldr (fun r acc => max r.indexTimestamp acc) 0

/-- The grouping key of `VersionCounts`: the row's last-attempt status,
with null status mapped to the single unattempted key `0` (the test
pins `map[int]int{0: 1, 500: 1}`). -/
def statusKey (r : VersionState) : Nat := r.status.getD 0

/-- Increment the count of key `k` in an association list of counts. -/
def bumpCount (k : Nat) : List (Nat × Nat) → List (Nat × Nat)
  | [] => [(k, 1)]
  | (q, c) :: rest =>
      if q = k then (q, c + 1) :: rest else (q, c) :: bumpCount k rest

/-- Look up the count of key `k` (zero when absent). -/
def lookupCount (k : Nat) : List (Nat × Nat) → Nat
  | [] => 0
  | (q, c) :: rest => if q = k then c else lookupCount k rest

/-- `VersionStats`, the derived aggregate of spec section 3. -/
structure VersionStats where
  latestTimestamp : Nat
  versionCounts : List (Nat × Nat)
deriving Repr, DecidableEq

/-- Modelled from the spec: `GetVersionStats` — the maximum
`IndexTimestamp` over all rows and the per-status row counts. -/
def GetVersionStats (store : List VersionState) : VersionStats :=
  { latestTimestamp := LatestIndexTimestamp store
    versionCounts := store.foldr (fun r acc => bumpCount (statusKey r) acc) [] }

/-- The store states reachable by the public mutating operations,
starting from the empty store. -/
inductive Reachable : List VersionState → Prop where
  | empty : Reachable []
  | insert (now : Nat) (vs : List IndexVersion) {s : List VersionState} :
      Reachable s → Reachable (InsertIndexVersions now s vs)
  | record (now : Nat) (p v : String) (ts code : Nat) (errMsg : Option String)
      {s s' : List VersionState} : Reachable s →
      UpsertVersionState now p v ts code errMsg s = .ok s' → Reachable s'

end VersionStore

namespace VersionStore

/-- If filtering a list by `p` yields exactly `[r]`, then `p r` holds. -/
theorem filter_singleton_pred {α : Type} {p : α → Bool} {l : List α} {r : α}
    (h : l.filter p = [r]) : p r = true := by
  have hm : r ∈ l.filter p := by rw [h]; exact List.mem_singleton_self r
  exact (List.mem_filter.mp hm).2

/-- If filtering a list by `p` yields exactly `[r]`, then `r` is in the
list. -/
theorem filter_singleton_mem {α : Type} {p : α → Bool} {l : List α} {r : α}
    (h : l.filter p = [r]) : r ∈ l := by
  have hm : r ∈ l.filter p := by rw [h]; exact List.mem_singleton_self r
  exact (List.mem_filter.mp hm).1

/-- If filtering by `p` yields exactly `[r]`, then `find?` finds `r`. -/
theorem find?_of_filter_singleton {α : Type} {p : α → Bool} {l : List α} {r : α}
    (h : l.filter p = [r]) : l.find? p = some r := by
  induction l with
  | nil => simp at h
  | cons a l ih =>
      by_cases ha : p a = true
      · rw [List.filter_cons_of_pos ha] at h
        injection h with h1 h2
        subst h1
        exact List.find?_cons_of_pos _ ha
      · rw [List.filter_cons_of_neg (by simpa using ha)] at h
        rw [List.find?_cons_of_neg _ (by simpa using ha)]
        exact ih h

/-- `filter` commutes with a `map` that preserves the predicate. -/
theorem filter_map_pred {α : Type} {p : α → Bool} {f : α → α}
    (hf : ∀ x, p (f x) = p x) :
    ∀ l : List α, (l.map f).filter p = (l.filter p).map f := by
  intro l
  induction l with
  | nil => rfl
  | cons a l ih =>
      by_cases ha : p a = true
      · rw [List.map_cons, List.filter_cons_of_pos (by rw [hf]; exact ha),
          List.filter_cons_of_pos ha, List.map_cons, ih]
      · rw [List.map_cons, List.filter_cons_of_neg (by rw [hf]; simpa using ha),
          List.filter_cons_of_neg (by simpa using ha), ih]

/-- `find?` commutes with a `map` that preserves the predicate. -/
theorem find?_map_pred {α : Type} {p : α → Bool} {f : α → α}
    (hf : ∀ x, p (f x) = p x) :
    ∀ l : List α, (l.map f).find? p = (l.find? p).map f := by
  intro l
  induction l with
  | nil => rfl
  | cons a l ih =>
      by_cases ha : p a = true
      · rw [List.map_cons, List.find?_cons_of_pos _ (by rw [hf]; exact ha),
          List.find?_cons_of_pos _ ha]
        rfl
      · rw [List.map_cons, List.find?_cons_of_neg _ (by rw [hf]; simpa using ha),
          List.find?_cons_of_neg _ (by simpa using ha), ih]

/-- A `map` that is the identity on every element of the list is the
identity. -/
theorem map_id_of_mem {α : Type} {f : α → α} :
    ∀ l : List α, (∀ x ∈ l, f x = x) → l.map f = l := by
  intro l
  induction l with
  | nil => intro _; rfl
  | cons a l ih =>
      intro h
      rw [List.map_cons, h a (List.mem_cons_self a l),
        ih (fun x hx => h x (List.mem_cons_of_mem a hx))]

/-- The attempt-recording update of `UpsertVersionState` leaves the
row's key unchanged. -/
theorem sameKey_record_update (now code : Nat) (p v : String)
    (errMsg : Option String) (x : VersionState) :
    sameKey p v
      (if sameKey p v x then
        { x with
          tryCount := x.tryCount + 1
          lastProcessedAt := some now
          status := some code
          error := errMsg
          nextProcessedAfter := some (x.createdAt + backoff (x.tryCount + 1)) }
      else x) = sameKey p v x := by
  by_cases hx : sameKey p v x = true
  · rw [if_pos hx]
    rfl
  · rw [if_neg hx]

/-- The timestamp-refreshing update of `upsertIndexVersion` leaves the
row's key unchanged. -/
theorem sameKey_refresh_update (ts : Nat) (p v : String) (x : VersionState) :
    sameKey p v
      (if sameKey p v x then { x with indexTimestamp := ts } else x) =
      sameKey p v x := by
  by_cases hx : sameKey p v x = true
  · rw [if_pos hx]
    rfl
  · rw [if_neg hx]

/-- `backoff` is strictly increasing in the attempt count. -/
theorem backoff_strictMono : StrictMono backoff := by
  intro a b h
  unfold backoff minute
  omega

end VersionStore

namespace VersionStore

/-- A concrete discovered-but-unattempted row used in witnesses,
matching the test's `foo.com/bar@v1.0.0`. -/
def fooRow : VersionState :=
  { modulePath := "foo.com/bar"
    version := "v1.0.0"
    indexTimestamp := 5
    createdAt := 2
    lastProcessedAt := none
    tryCount := 0
    status := none
    error := none
    nextProcessedAfter := none }

end VersionStore

/-- C3 (spec-modelled): recording an attempt on the unique existing row
increments `TryCount` by exactly 1, sets `Status` to the given code and
`LastProcessedAt` to now, makes `Error` non-null exactly when the given
error is non-null, and sets
`NextProcessedAfter = CreatedAt + backoff TryCount`, where `backoff` is
strictly increasing with `backoff 1` one minute, so
`NextProcessedAfter > CreatedAt`. -/
theorem c3_recordAttempt_updates (now ts code : Nat) (p v : String)
    (errMsg : Option String) (store : List VersionStore.VersionState)
    (r : VersionStore.VersionState)
    (hr : store.filter (VersionStore.sameKey p v) = [r]) :
    ∃ store' r',
      VersionStore.UpsertVersionState now p v ts code errMsg store = .ok store' ∧
      VersionStore.GetVersionState p v store' = .ok r' ∧
      r'.tryCount = r.tryCount + 1 ∧
      r'.status = some code ∧
      r'.error.isSome = errMsg.isSome ∧
      r'.lastProcessedAt = some now ∧
      r'.nextProcessedAfter = some (r'.createdAt + VersionStore.backoff r'.tryCount) ∧
      r'.createdAt = r.createdAt ∧
      StrictMono VersionStore.backoff ∧
      VersionStore.backoff 1 = VersionStore.minute ∧
      (∀ t, r'.nextProcessedAfter = some t → r'.createdAt < t) := by
  have hkey : VersionStore.sameKey p v r = true :=
    VersionStore.filter_singleton_pred hr
  have hmem : r ∈ store := VersionStore.filter_singleton_mem hr
  have hany : store.any (VersionStore.sameKey p v) = true :=
    List.any_eq_true.mpr ⟨r, hmem, hkey⟩
  have hfind := VersionStore.find?_of_filter_singleton hr
  refine ⟨store.map (fun x =>
      if VersionStore.sameKey p v x then
        { x with
          tryCount := x.tryCount + 1
          lastProcessedAt := some now
          status := some code
          error := errMsg
          nextProcessedAfter :=
            some (x.createdAt + VersionStore.backoff (x.tryCount + 1)) }
      else x),
    { r with
      tryCount := r.tryCount + 1
      lastProcessedAt := some now
      status := some code
      error := errMsg
      nextProcessedAfter :=
        some (r.createdAt + VersionStore.backoff (r.tryCount + 1)) },
    ?_, ?_, rfl, rfl, rfl, rfl, rfl, rfl,
    VersionStore.backoff_strictMono, rfl, ?_⟩
  · unfold VersionStore.UpsertVersionState
    rw [if_pos hany]
  · unfold VersionStore.GetVersionState
    rw [VersionStore.find?_map_pred
      (VersionStore.sameKey_record_update now code p v errMsg), hfind,
      Option.map, if_pos hkey]
  · intro t ht
    injection ht with ht
    subst ht
    show r.createdAt < r.createdAt + VersionStore.backoff (r.tryCount + 1)
    have : 0 < VersionStore.backoff (r.tryCount + 1) := by
      unfold VersionStore.backoff VersionStore.minute; omega
    omega

/-- C3 witness at the concrete one-row store. -/
theorem c3_recordAttempt_updates_witness :
    ∃ store' r',
      VersionStore.UpsertVersionState 100 "foo.com/bar" "v1.0.0" 5 500
        (some "bad request") [VersionStore.fooRow] = .ok store' ∧
      VersionStore.GetVersionState "foo.com/bar" "v1.0.0" store' = .ok r' ∧
      r'.tryCount = VersionStore.fooRow.tryCount + 1 ∧
      r'.status = some 500 ∧
      r'.error.isSome = (some "bad request").isSome ∧
      r'.lastProcessedAt = some 100 ∧
      r'.nextProcessedAfter = some (r'.createdAt + VersionStore.backoff r'.tryCount) ∧
      r'.createdAt = VersionStore.fooRow.createdAt ∧
      StrictMono VersionStore.backoff ∧
      VersionStore.backoff 1 = VersionStore.minute ∧
      (∀ t, r'.nextProcessedAfter = some t → r'.createdAt < t) :=
  c3_recordAttempt_updates 100 5 500 "foo.com/bar" "v1.0.0"
    (some "bad request") [VersionStore.fooRow] VersionStore.fooRow (by decide)

/-- C6 (spec-modelled): recording an attempt for a key with no row in
the store fails with a not-found error; since the operation returns the
error instead of a new store, no row is created. -/
theorem c6_recordAttempt_absent_notFound (now ts code : Nat) (p v : String)
    (errMsg : Option String) (store : List VersionStore.VersionState)
    (h : store.any (VersionStore.sameKey p v) = false) :
    VersionStore.UpsertVersionState now p v ts code errMsg store =
      .error .notFound := by
  unfold VersionStore.UpsertVersionState
  rw [if_neg]
  simp [h]

/-- C6 witness: recording an attempt on an empty store and on a store
holding only a different key both fail with not-found. -/
theorem c6_recordAttempt_absent_notFound_witness :
    VersionStore.UpsertVersionState 100 "baz.com/quux" "v2.0.1" 5 500
      (some "bad request") [VersionStore.fooRow] = .error .notFound :=
  c6_recordAttempt_absent_notFound 100 5 500 "baz.com/quux" "v2.0.1"
    (some "bad request") [VersionStore.fooRow] (by decide)

/-- C5 (spec-modelled): inserting an already-present
`(ModulePath, Version)` again overwrites only that row's
`IndexTimestamp` (the record update keeps `CreatedAt`, `TryCount`,
`LastProcessedAt`, `Status`, `Error`, `NextProcessedAfter`), leaves all
other rows and the row count unchanged, and in particular never creates
a second row for the key. -/
theorem c5_insert_existing_overwrites_timestamp (now ts : Nat) (p v : String)
    (store : List VersionStore.VersionState) (r : VersionStore.VersionState)
    (hr : store.filter (VersionStore.sameKey p v) = [r]) :
    (VersionStore.InsertIndexVersions now store [⟨p, v, ts⟩]).filter
        (VersionStore.sameKey p v) = [{ r with indexTimestamp := ts }] ∧
    (VersionStore.InsertIndexVersions now store [⟨p, v, ts⟩]).length =
        store.length ∧
    (VersionStore.InsertIndexVersions now store [⟨p, v, ts⟩]).filter
        (fun x => !(VersionStore.sameKey p v x)) =
      store.filter (fun x => !(VersionStore.sameKey p v x)) := by
  have hkey : VersionStore.sameKey p v r = true :=
    VersionStore.filter_singleton_pred hr
  have hmem : r ∈ store := VersionStore.filter_singleton_mem hr
  have hany : store.any (VersionStore.sameKey p v) = true :=
    List.any_eq_true.mpr ⟨r, hmem, hkey⟩
  have hstep : VersionStore.InsertIndexVersions now store [⟨p, v, ts⟩] =
      store.map (fun x =>
        if VersionStore.sameKey p v x then { x with indexTimestamp := ts }
        else x) := by
    show VersionStore.upsertIndexVersion now store ⟨p, v, ts⟩ = _
    unfold VersionStore.upsertIndexVersion
    rw [if_pos hany]
  refine ⟨?_, ?_, ?_⟩
  · rw [hstep,
      VersionStore.filter_map_pred (VersionStore.sameKey_refresh_update ts p v),
      hr, List.map_cons, List.map_nil, if_pos hkey]
  · rw [hstep, List.length_map]
  · rw [hstep, VersionStore.filter_map_pred
      (fun x => by rw [VersionStore.sameKey_refresh_update ts p v x])]
    apply VersionStore.map_id_of_mem
    intro x hx
    have : VersionStore.sameKey p v x = false := by
      have := (List.mem_filter.mp hx).2
      simpa using this
    rw [if_neg (by simp [this])]

/-- C5 witness: refreshing the concrete row's timestamp to 9. -/
theorem c5_insert_existing_overwrites_timestamp_witness :
    (VersionStore.InsertIndexVersions 50 [VersionStore.fooRow]
        [⟨"foo.com/bar", "v1.0.0", 9⟩]).filter
        (VersionStore.sameKey "foo.com/bar" "v1.0.0") =
      [{ VersionStore.fooRow with indexTimestamp := 9 }] ∧
    (VersionStore.InsertIndexVersions 50 [VersionStore.fooRow]
        [⟨"foo.com/bar", "v1.0.0", 9⟩]).length = [VersionStore.fooRow].length ∧
    (VersionStore.InsertIndexVersions 50 [VersionStore.fooRow]
        [⟨"foo.com/bar", "v1.0.0", 9⟩]).filter
        (fun x => !(VersionStore.sameKey "foo.com/bar" "v1.0.0" x)) =
      [VersionStore.fooRow].filter
        (fun x => !(VersionStore.sameKey "foo.com/bar" "v1.0.0" x)) :=
  c5_insert_existing_overwrites_timestamp 50 9 "foo.com/bar" "v1.0.0"
    [VersionStore.fooRow] VersionStore.fooRow (by decide)

namespace VersionStore

/-- `keyLE` is total: String is linearly ordered, so two keys always
compare. -/
theorem keyLE_total (a b : VersionState) : keyLE a b ∨ keyLE b a := by
  unfold keyLE
  rcases lt_trichotomy a.modulePath b.modulePath with h | h | h
  · exact Or.inl (Or.inl h)
  · rcases le_total a.version b.version with hv | hv
    · exact Or.inl (Or.inr ⟨h, hv⟩)
    · exact Or.inr (Or.inr ⟨h.symm, hv⟩)
  · exact Or.inr (Or.inl h)

/-- `keyLE` is transitive. -/
theorem keyLE_trans {a b c : VersionState} (h1 : keyLE a b) (h2 : keyLE b c) :
    keyLE a c := by
  unfold keyLE at h1 h2 ⊢
  rcases h1 with h1 | ⟨e1, v1⟩
  · rcases h2 with h2 | ⟨e2, _⟩
    · exact Or.inl (lt_trans h1 h2)
    · exact Or.inl (lt_of_lt_of_eq h1 e2)
  · rcases h2 with h2 | ⟨e2, v2⟩
    · exact Or.inl (lt_of_eq_of_lt e1 h2)
    · exact Or.inr ⟨e1.trans e2, le_trans v1 v2⟩

instance : IsTotal VersionState fetchOrder := by
  constructor
  intro a b
  unfold fetchOrder
  rcases lt_trichotomy a.indexTimestamp b.indexTimestamp with h | h | h
  · exact Or.inr (Or.inl h)
  · rcases keyLE_total a b with hk | hk
    · exact Or.inl (Or.inr ⟨h, hk⟩)
    · exact Or.inr (Or.inr ⟨h.symm, hk⟩)
  · exact Or.inl (Or.inl h)

instance : IsTrans VersionState fetchOrder := by
  constructor
  intro a b c h1 h2
  unfold fetchOrder at h1 h2 ⊢
  rcases h1 with h1 | ⟨e1, k1⟩
  · rcases h2 with h2 | ⟨e2, _⟩
    · exact Or.inl (lt_trans h2 h1)
    · exact Or.inl (lt_of_eq_of_lt e2.symm h1)
  · rcases h2 with h2 | ⟨e2, k2⟩
    · exact Or.inl (lt_of_lt_of_eq h2 e1.symm)
    · exact Or.inr ⟨e1.trans e2, keyLE_trans k1 k2⟩

end VersionStore

/-- C4 (spec-modelled): for every store state and limit,
`GetNextVersionsToFetch` returns at most `limit` rows, includes only
rows whose `NextProcessedAfter` is null or not in the future, is sorted
by `IndexTimestamp` descending with `(ModulePath, Version)` ascending
tie-break, and is the empty list — not an error — when no row is
eligible. -/
theorem c4_getNextVersionsToFetch_spec (now limit : Nat)
    (store : List VersionStore.VersionState) :
    (VersionStore.GetNextVersionsToFetch now limit store).length ≤ limit ∧
    (∀ r ∈ VersionStore.GetNextVersionsToFetch now limit store,
      VersionStore.eligible now r = true) ∧
    List.Sorted VersionStore.fetchOrder
      (VersionStore.GetNextVersionsToFetch now limit store) ∧
    ((∀ r ∈ store, VersionStore.eligible now r = false) →
      VersionStore.GetNextVersionsToFetch now limit store = []) := by
  refine ⟨?_, ?_, ?_, ?_⟩
  · unfold VersionStore.GetNextVersionsToFetch
    rw [List.length_take]
    exact min_le_left _ _
  · intro r hr
    unfold VersionStore.GetNextVersionsToFetch at hr
    have h1 : r ∈ List.insertionSort VersionStore.fetchOrder
        (store.filter (VersionStore.eligible now)) :=
      List.take_subset _ _ hr
    have h2 : r ∈ store.filter (VersionStore.eligible now) :=
      (List.perm_insertionSort VersionStore.fetchOrder _).mem_iff.mp h1
    exact (List.mem_filter.mp h2).2
  · unfold VersionStore.GetNextVersionsToFetch
    exact List.Pairwise.sublist (List.take_sublist _ _)
      (List.sorted_insertionSort VersionStore.fetchOrder _)
  · intro h
    have hnil : store.filter (VersionStore.eligible now) = [] := by
      rw [List.filter_eq_nil_iff]
      intro a ha
      simp [h a ha]
    unfold VersionStore.GetNextVersionsToFetch
    rw [hnil]
    simp

/-- C4 witness: a store whose single row has `NextProcessedAfter` in
the future yields the empty batch, and the length, eligibility and
sortedness clauses hold there. -/
theorem c4_getNextVersionsToFetch_spec_witness :
    VersionStore.GetNextVersionsToFetch 3 10
      [{ VersionStore.fooRow with nextProcessedAfter := some 62 }] = [] :=
  (c4_getNextVersionsToFetch_spec 3 10
    [{ VersionStore.fooRow with nextProcessedAfter := some 62 }]).2.2.2
    (by decide)

namespace VersionStore

/-- The candidate invariant, rebased on `CreatedAt`: every row whose
`NextProcessedAfter` has been set has it strictly after the row's
creation time. -/
def npaInv (s : List VersionState) : Prop :=
  ∀ r ∈ s, ∀ t, r.nextProcessedAfter = some t → r.createdAt < t

/-- `upsertIndexVersion` preserves the invariant: refreshed rows keep
`CreatedAt` and `NextProcessedAfter`, and fresh rows have no
`NextProcessedAfter`. -/
theorem npaInv_upsertIndexVersion (now : Nat) (s : List VersionState)
    (v : IndexVersion) (ih : npaInv s) :
    npaInv (upsertIndexVersion now s v) := by
  unfold upsertIndexVersion
  by_cases h : s.any (sameKey v.path v.version) = true
  · rw [if_pos h]
    intro r hr
    rcases List.mem_map.mp hr with ⟨x, hx, hfx⟩
    by_cases hk : sameKey v.path v.version x = true
    · rw [if_pos hk] at hfx
      subst hfx
      intro t ht
      exact ih x hx t ht
    · rw [if_neg hk] at hfx
      subst hfx
      exact ih x hx
  · rw [if_neg h]
    intro r hr
    rcases List.mem_append.mp hr with hl | hl
    · exact ih r hl
    · rcases List.mem_singleton.mp hl with rfl
      intro t ht
      simp [newState] at ht

/-- `InsertIndexVersions` preserves the invariant. -/
theorem npaInv_insertIndexVersions (now : Nat) :
    ∀ (vs : List IndexVersion) (s : List VersionState),
      npaInv s → npaInv (InsertIndexVersions now s vs) := by
  intro vs
  induction vs with
  | nil => intro s ih; exact ih
  | cons a vs ihv =>
      intro s ih
      exact ihv (upsertIndexVersion now s a)
        (npaInv_upsertIndexVersion now s a ih)

/-- A successful `UpsertVersionState` preserves the invariant: the
updated row gets `NextProcessedAfter = CreatedAt + backoff`, which is
strictly after `CreatedAt` since `backoff` is positive. -/
theorem npaInv_upsertVersionState (now ts code : Nat) (p v : String)
    (errMsg : Option String) (s s' : List VersionState)
    (h : UpsertVersionState now p v ts code errMsg s = .ok s')
    (ih : npaInv s) : npaInv s' := by
  unfold UpsertVersionState at h
  by_cases ha : s.any (sameKey p v) = true
  · rw [if_pos ha] at h
    injection h with h
    subst h
    intro r hr
    rcases List.mem_map.mp hr with ⟨x, hx, hfx⟩
    by_cases hk : sameKey p v x = true
    · rw [if_pos hk] at hfx
      subst hfx
      intro t ht
      injection ht with ht
      subst ht
      show x.createdAt < x.createdAt + backoff (x.tryCount + 1)
      have : 0 < backoff (x.tryCount + 1) := by
        unfold backoff minute; omega
      omega
    · rw [if_neg hk] at hfx
      subst hfx
      exact ih x hx
  · rw [if_neg ha] at h
    cases h

/-- `foo.com/bar@v1.0.0` discovered at time 0 and first attempted at
time 1000: the spec's RecordAttempt effects give it
`NextProcessedAfter = CreatedAt + backoff 1 = 60` while
`LastProcessedAt = 1000`. -/
def lateRow : VersionState :=
  { modulePath := "foo.com/bar"
    version := "v1.0.0"
    indexTimestamp := 5
    createdAt := 0
    lastProcessedAt := some 1000
    tryCount := 1
    status := some 500
    error := some "bad request"
    nextProcessedAfter := some 60 }

end VersionStore

/-- C7 counterexample: a reachable store state (discover at time 0,
record the first attempt at time 1000) whose row has
`NextProcessedAfter = 60` strictly below `LastProcessedAt = 1000`; the
claimed invariant `NextProcessedAfter ≥ LastProcessedAt` fails because
the spec's own backoff is based on `CreatedAt`, not on the attempt
time. -/
theorem c7_counterexample :
    VersionStore.Reachable [VersionStore.lateRow] ∧
    VersionStore.lateRow.nextProcessedAfter = some 60 ∧
    VersionStore.lateRow.lastProcessedAt = some 1000 ∧
    ¬(1000 ≤ 60) := by
  refine ⟨?_, rfl, rfl, by decide⟩
  exact VersionStore.Reachable.record 1000 "foo.com/bar" "v1.0.0" 5 500
    (some "bad request")
    (VersionStore.Reachable.insert 0 [⟨"foo.com/bar", "v1.0.0", 5⟩]
      VersionStore.Reachable.empty)
    rfl

/-- C7 amended (spec-modelled): in every reachable store state, every
row whose `NextProcessedAfter` has been set has it strictly greater
than the row's `CreatedAt` (rather than ≥ `LastProcessedAt`, which the
`CreatedAt`-based backoff violates); every operation preserves this. -/
theorem c7_nextProcessedAfter_after_creation
    (s : List VersionStore.VersionState) (hs : VersionStore.Reachable s) :
    VersionStore.npaInv s := by
  induction hs with
  | empty => intro r hr; cases hr
  | insert now vs _ ih =>
      exact VersionStore.npaInv_insertIndexVersions now vs _ ih
  | record now p v ts code errMsg _ h ih =>
      exact VersionStore.npaInv_upsertVersionState now ts code p v errMsg
        _ _ h ih

/-- C7 amended witness: the amended invariant at the concrete reachable
single-row store of the counterexample scenario. -/
theorem c7_nextProcessedAfter_after_creation_witness :
    VersionStore.npaInv [VersionStore.lateRow] :=
  c7_nextProcessedAfter_after_creation [VersionStore.lateRow]
    (VersionStore.Reachable.record 1000 "foo.com/bar" "v1.0.0" 5 500
      (some "bad request")
      (VersionStore.Reachable.insert 0 [⟨"foo.com/bar", "v1.0.0", 5⟩]
        VersionStore.Reachable.empty)
      rfl)

namespace VersionStore

/-- `LatestIndexTimestamp` bounds every row's timestamp. -/
theorem latest_ge :
    ∀ (store : List VersionState), ∀ r ∈ store,
      r.indexTimestamp ≤ LatestIndexTimestamp store := by
  intro store
  induction store with
  | nil => intro r hr; cases hr
  | cons a l ih =>
      intro r hr
      rcases List.mem_cons.mp hr with rfl | hl
      · exact le_max_left _ _
      · exact le_trans (ih r hl) (le_max_right _ _)

/-- `LatestIndexTimestamp` is zero or attained by some row. -/
theorem latest_attained :
    ∀ (store : List VersionState), LatestIndexTimestamp store = 0 ∨
      ∃ r ∈ store, r.indexTimestamp = LatestIndexTimestamp store := by
  intro store
  induction store with
  | nil => exact Or.inl rfl
  | cons a l ih =>
      have hfold : LatestIndexTimestamp (a :: l) =
          max a.indexTimestamp (LatestIndexTimestamp l) := rfl
      rcases max_cases a.indexTimestamp (LatestIndexTimestamp l) with
        ⟨hm, _⟩ | ⟨hm, _⟩
      · exact Or.inr ⟨a, List.mem_cons_self a l, by rw [hfold, hm]⟩
      · rcases ih with hz | ⟨r, hr, hts⟩
        · rw [hfold, hm, hz]
          exact Or.inl rfl
        · exact Or.inr ⟨r, List.mem_cons_of_mem a hr, by rw [hfold, hm, hts]⟩

/-- Bumping key `q` adds one to `q`'s count and nothing else. -/
theorem lookupCount_bumpCount (k q : Nat) :
    ∀ acc, lookupCount k (bumpCount q acc) =
      (if q = k then 1 else 0) + lookupCount k acc := by
  intro acc
  induction acc with
  | nil => by_cases h : q = k <;> simp [bumpCount, lookupCount, h]
  | cons a rest ih =>
      obtain ⟨w, c⟩ := a
      by_cases h1 : w = q
      · subst h1
        by_cases h2 : w = k <;> simp [bumpCount, lookupCount, h2] <;> omega
      · by_cases h2 : w = k
        · subst h2
          have h1s : ¬q = w := fun h => h1 h.symm
          simp [bumpCount, lookupCount, h1, h1s]
        · simp [bumpCount, lookupCount, h1, h2, ih]

/-- The folded counts agree with filtering by status key. -/
theorem lookupCount_foldr (k : Nat) :
    ∀ (store : List VersionState),
      lookupCount k (store.foldr (fun r acc => bumpCount (statusKey r) acc) []) =
        (store.filter (fun r => statusKey r == k)).length := by
  intro store
  induction store with
  | nil => simp [lookupCount]
  | cons r l ih =>
      rw [List.foldr_cons, lookupCount_bumpCount]
      by_cases h : statusKey r = k
      · rw [if_pos h, List.filter_cons_of_pos (by simp [h]), List.length_cons, ih]
        omega
      · rw [if_neg h, List.filter_cons_of_neg (by simp [h]), ih]
        omega

/-- The end-to-end scenario rows of the test: an unattempted
`baz.com/quux` with the latest timestamp, and a `foo.com/bar` whose
last attempt ended with status 500. -/
def bazRow : VersionState :=
  { modulePath := "baz.com/quux"
    version := "v2.0.1"
    indexTimestamp := 10
    createdAt := 0
    lastProcessedAt := none
    tryCount := 0
    status := none
    error := none
    nextProcessedAfter := none }

/-- `foo.com/bar` after one failed attempt with status 500. -/
def fooRowAttempted : VersionState :=
  { modulePath := "foo.com/bar"
    version := "v1.0.0"
    indexTimestamp := 5
    createdAt := 2
    lastProcessedAt := some 3
    tryCount := 1
    status := some 500
    error := some "bad request"
    nextProcessedAfter := some 62 }

end VersionStore

/-- C8 (spec-modelled): `GetVersionStats` returns as `LatestTimestamp`
the maximum `IndexTimestamp` over all rows — attempted or not — (zero
on the empty store) and as `VersionCounts` the number of rows per
last-attempt status, rows that were never attempted (null `Status`)
being counted under the single unattempted key 0. -/
theorem c8_getVersionStats_spec (store : List VersionStore.VersionState) :
    (∀ r ∈ store, r.indexTimestamp ≤
      (VersionStore.GetVersionStats store).latestTimestamp) ∧
    ((VersionStore.GetVersionStats store).latestTimestamp = 0 ∨
      ∃ r ∈ store, r.indexTimestamp =
        (VersionStore.GetVersionStats store).latestTimestamp) ∧
    (∀ k, VersionStore.lookupCount k
        (VersionStore.GetVersionStats store).versionCounts =
      (store.filter (fun r => VersionStore.statusKey r == k)).length) :=
  ⟨VersionStore.latest_ge store,
   VersionStore.latest_attained store,
   fun k => VersionStore.lookupCount_foldr k store⟩

/-- C8 witness: on the test's two-row scenario — one unattempted row
with timestamp 10 and one attempted row with status 500 — the
unattempted row attains the latest timestamp and the counts are one
per group. -/
theorem c8_getVersionStats_spec_witness :
    VersionStore.bazRow.indexTimestamp ≤
      (VersionStore.GetVersionStats
        [VersionStore.bazRow, VersionStore.fooRowAttempted]).latestTimestamp ∧
    VersionStore.lookupCount 0
      (VersionStore.GetVersionStats
        [VersionStore.bazRow, VersionStore.fooRowAttempted]).versionCounts =
      ([VersionStore.bazRow, VersionStore.fooRowAttempted].filter
        (fun r => VersionStore.statusKey r == 0)).length ∧
    VersionStore.lookupCount 500
      (VersionStore.GetVersionStats
        [VersionStore.bazRow, VersionStore.fooRowAttempted]).versionCounts =
      ([VersionStore.bazRow, VersionStore.fooRowAttempted].filter
        (fun r => VersionStore.statusKey r == 500)).length :=
  ⟨(c8_getVersionStats_spec [VersionStore.bazRow, VersionStore.fooRowAttempted]).1
      VersionStore.bazRow (by decide),
   (c8_getVersionStats_spec [VersionStore.bazRow, VersionStore.fooRowAttempted]).2.2 0,
   (c8_getVersionStats_spec [VersionStore.bazRow, VersionStore.fooRowAttempted]).2.2 500⟩
